import Mathlib

/-!
# Camera transform module (`src/game_object/camera.cpp`)

A shallow embedding of `GLT::camera`.  The pose setters are written over any scalar type
that has the arithmetic operations they use.  Two scalar types are used in the theorems:

* an arbitrary linearly ordered field `F` (exact arithmetic; `ℝ` and `ℚ` are instances),
  where rounding, infinities and NaN do not exist;
* `f32 F`, which adds `+inf`, `-inf` and `NaN` to `F` with the IEEE 754 rules for them
  (still without rounding), for the one place where the code's behaviour depends on a
  non-finite value: the guard of `set_view_target`.

The projection setters are written over a linearly ordered field.  The transcendental
functions the code calls (`sqrt`, `sin`, `cos`, `tan`, `atan`) and the constant
`pi` are passed as arguments, which keeps every definition computable; the
theorems instantiate them with the real functions of Mathlib.

Indexing follows the source: `m i j` is the C++ expression `m[i][j]`
(glm is column-major, so `i` is the column and `j` the row).
-/

namespace GLT

/-! ## glm vectors and matrices -/

/-- The type `glm::vec2`. -/
structure vec2 (F : Type) where
  x : F
  y : F
deriving DecidableEq

/-- The type `glm::vec3`. -/
structure vec3 (F : Type) where
  x : F
  y : F
  z : F
deriving DecidableEq

/-- The type `glm::mat4`; `m i j` is `m[i][j]`. -/
abbrev mat4 (F : Type) := Fin 4 → Fin 4 → F

section glm

variable {F : Type} [Zero F] [One F] [Add F] [Sub F] [Mul F] [Div F] [Neg F]

/-- Component-wise `operator-` of `glm::vec3`. -/
def vec3.sub (a b : vec3 F) : vec3 F :=
  ⟨a.x - b.x, a.y - b.y, a.z - b.z⟩

/-- Vector times scalar, `operator*` of `glm::vec3`. -/
def vec3.smul (v : vec3 F) (s : F) : vec3 F :=
  ⟨v.x * s, v.y * s, v.z * s⟩

/-- The function `glm::dot` on `vec3`. -/
def dot (a b : vec3 F) : F :=
  a.x * b.x + a.y * b.y + a.z * b.z

/-- The function `glm::cross`. -/
def cross (x y : vec3 F) : vec3 F :=
  ⟨x.y * y.z - y.y * x.z, x.z * y.x - y.z * x.x, x.x * y.y - y.x * x.y⟩

/-- The function `glm::inversesqrt`. -/
def inversesqrt (sqrt : F → F) (x : F) : F :=
  1 / sqrt x

/-- The function `glm::normalize`, which is `v * inversesqrt(dot(v, v))`. -/
def normalize (sqrt : F → F) (v : vec3 F) : vec3 F :=
  v.smul (inversesqrt sqrt (dot v v))

/-- The constructor `glm::mat4{ s }`: `s` on the diagonal, zero elsewhere. -/
def mat4.diag (s : F) : mat4 F :=
  fun i j => if i = j then s else 0

/-- The assignment `m[i][j] = x`. -/
def mat4.set (m : mat4 F) (i j : Fin 4) (x : F) : mat4 F :=
  fun a b => if a = i ∧ b = j then x else m a b

end glm

section glm_exact

variable {F : Type} [LinearOrderedField F]

/-- The function `glm::radians` in exact arithmetic. -/
def radians (pi : F) (degrees : F) : F :=
  degrees * (pi / 180)

/-- The function `glm::degrees` in exact arithmetic. -/
def degrees (pi : F) (radians : F) : F :=
  radians * (180 / pi)

/-- The constant `std::numeric_limits<float>::epsilon()`, which is `2^-23`. -/
def epsilon : F :=
  1 / 2 ^ 23

end glm_exact

/-! ## Floats with non-finite values -/

/-- The values of the C++ type `f32` (`float`) when non-finite values matter: a finite
value, taken exactly from `F` (no rounding, no overflow, one zero), `+inf`, `-inf` or
`NaN`. -/
inductive f32 (F : Type) where
  | finite (x : F)
  | inf
  | neg_inf
  | nan
deriving DecidableEq

section f32_arithmetic

variable {F : Type} [LinearOrderedField F]

/-- IEEE 754 negation. -/
def f32.neg : f32 F → f32 F
  | .finite x => .finite (-x)
  | .inf => .neg_inf
  | .neg_inf => .inf
  | .nan => .nan

/-- IEEE 754 addition: `inf + (-inf)` is `NaN`, and `NaN` propagates. -/
def f32.add : f32 F → f32 F → f32 F
  | .nan, _ => .nan
  | _, .nan => .nan
  | .finite x, .finite y => .finite (x + y)
  | .finite _, .inf => .inf
  | .finite _, .neg_inf => .neg_inf
  | .inf, .finite _ => .inf
  | .inf, .inf => .inf
  | .inf, .neg_inf => .nan
  | .neg_inf, .finite _ => .neg_inf
  | .neg_inf, .inf => .nan
  | .neg_inf, .neg_inf => .neg_inf

/-- IEEE 754 subtraction, `a - b = a + (-b)`; in particular `inf - inf` is `NaN`. -/
def f32.sub (a b : f32 F) : f32 F :=
  f32.add a (f32.neg b)

/-- The sign rule shared by multiplication and division with an infinite operand:
`inf` for a positive finite factor, `-inf` for a negative one, `NaN` for zero. -/
def f32.signed_inf (x : F) : f32 F :=
  if 0 < x then .inf else if x < 0 then .neg_inf else .nan

/-- IEEE 754 multiplication: `0 * inf` is `NaN`, and `NaN` propagates. -/
def f32.mul : f32 F → f32 F → f32 F
  | .nan, _ => .nan
  | _, .nan => .nan
  | .finite x, .finite y => .finite (x * y)
  | .finite x, .inf => f32.signed_inf x
  | .finite x, .neg_inf => f32.signed_inf (-x)
  | .inf, .finite y => f32.signed_inf y
  | .neg_inf, .finite y => f32.signed_inf (-y)
  | .inf, .inf => .inf
  | .inf, .neg_inf => .neg_inf
  | .neg_inf, .inf => .neg_inf
  | .neg_inf, .neg_inf => .inf

/-- IEEE 754 division: `x / 0` is an infinity for `x ≠ 0` (the zero of the model is `+0`),
`0 / 0` and `inf / inf` are `NaN`, a finite value over an infinity is `0`. -/
def f32.div : f32 F → f32 F → f32 F
  | .nan, _ => .nan
  | _, .nan => .nan
  | .finite x, .finite y => if y = 0 then f32.signed_inf x else .finite (x / y)
  | .finite _, .inf => .finite 0
  | .finite _, .neg_inf => .finite 0
  | .inf, .finite y => if 0 ≤ y then .inf else .neg_inf
  | .neg_inf, .finite y => if 0 ≤ y then .neg_inf else .inf
  | .inf, .inf => .nan
  | .inf, .neg_inf => .nan
  | .neg_inf, .inf => .nan
  | .neg_inf, .neg_inf => .nan

/-- The square root of a float from a square root on `F`: `NaN` below zero, `inf` at
`inf`. -/
def f32.sqrt (sqrt : F → F) : f32 F → f32 F
  | .finite x => if 0 ≤ x then .finite (sqrt x) else .nan
  | .inf => .inf
  | .neg_inf => .nan
  | .nan => .nan

instance : Zero (f32 F) := ⟨.finite 0⟩

instance : One (f32 F) := ⟨.finite 1⟩

instance : Neg (f32 F) := ⟨f32.neg⟩

instance : Add (f32 F) := ⟨f32.add⟩

instance : Sub (f32 F) := ⟨f32.sub⟩

instance : Mul (f32 F) := ⟨f32.mul⟩

instance : Div (f32 F) := ⟨f32.div⟩

end f32_arithmetic

/-! ## Validation macros -/

/-- Modelled from the spec: the macro `VALIDATE(cond, command, .., msg)` is defined in a
header that is not part of the sources at hand.  Spec 4.2 and 7 (soft-fail): when `cond`
is false it logs a diagnostic and executes `command` (in `camera.cpp` always `return`, so
the state is handed back as it is); when `cond` is true execution continues. -/
def VALIDATE {α : Type} (cond : Bool) (command : α) (continuation : α) : α :=
  if cond then continuation else command

/-- Modelled from the spec: the macro `ASSERT(cond, .., msg)` is defined in a header that
is not part of the sources at hand.  Spec 7 (hard-fail): "a fatal assertion/panic that
halts execution"; the halt is `none`.  When `cond` is true execution continues. -/
def ASSERT {α : Type} (cond : Bool) (continuation : Option α) : Option α :=
  if cond then continuation else none

/-! ## The camera -/

/-- The data members of `GLT::camera` that `camera.cpp` reads and writes. -/
structure camera (F : Type) where
  m_position : vec3 F
  m_direction : vec3 F
  m_view_matrix : mat4 F
  m_projection_matrix : mat4 F
  m_clipping_near : F
  m_clipping_far : F
  m_perspective_fov_y : F
  m_perspective_aspect_ratio : F

section pose

variable {F : Type} [Zero F] [One F] [Add F] [Sub F] [Mul F] [Div F] [Neg F] [DecidableEq F]

/-- `camera::set_clipping_dist` (camera.cpp 15-21). -/
def set_clipping_dist (near_dis far_dis : F) (c : camera F) : camera F :=
  { c with m_clipping_near := near_dis, m_clipping_far := far_dis }

/-- `camera::set_view_direction` (camera.cpp 23-44). -/
def set_view_direction (sqrt : F → F) (position direction up : vec3 F) (c : camera F) :
    camera F :=
  let w := normalize sqrt direction
  let u := normalize sqrt (cross w up)
  let v := cross w u
  let m := mat4.diag 1
  let m := mat4.set m 0 0 u.x
  let m := mat4.set m 1 0 u.y
  let m := mat4.set m 2 0 u.z
  let m := mat4.set m 0 1 v.x
  let m := mat4.set m 1 1 v.y
  let m := mat4.set m 2 1 v.z
  let m := mat4.set m 0 2 w.x
  let m := mat4.set m 1 2 w.y
  let m := mat4.set m 2 2 w.z
  let m := mat4.set m 3 0 (-dot u position)
  let m := mat4.set m 3 1 (-dot v position)
  let m := mat4.set m 3 2 (-dot w position)
  { c with m_position := position, m_direction := direction, m_view_matrix := m }

/-- `camera::set_view_target` (camera.cpp 46-52).  glm's `!=` on `vec3` is the negation
of the component-wise `==`; against the zero vector, which has no `NaN` component, the
float `==` is equality of values (a `NaN` or infinite component is unequal to `0`). -/
def set_view_target (sqrt : F → F) (position target up : vec3 F) (c : camera F) :
    camera F :=
  VALIDATE (decide (target.sub position ≠ ⟨0, 0, 0⟩)) c
    (set_view_direction sqrt position (target.sub position) up c)

/-- `camera::set_view_YXZ` (camera.cpp 54-95). -/
def set_view_YXZ (cos sin : F → F) (position rotation : vec3 F) (c : camera F) : camera F :=
  let c1 := cos rotation.y
  let c2 := cos rotation.x
  let c3 := cos rotation.z
  let s1 := sin rotation.y
  let s2 := sin rotation.x
  let s3 := sin rotation.z
  let u : vec3 F := ⟨c1 * c3 + s1 * s2 * s3, c2 * s3, c1 * s2 * s3 - c3 * s1⟩
  let v : vec3 F := ⟨c3 * s1 * s2 - c1 * s3, c2 * c3, c1 * c3 * s2 + s1 * s3⟩
  let w : vec3 F := ⟨c2 * s1, -s2, c1 * c2⟩
  let m := mat4.diag 1
  let m := mat4.set m 0 0 u.x
  let m := mat4.set m 1 0 u.y
  let m := mat4.set m 2 0 u.z
  let m := mat4.set m 0 1 v.x
  let m := mat4.set m 1 1 v.y
  let m := mat4.set m 2 1 v.z
  let m := mat4.set m 0 2 w.x
  let m := mat4.set m 1 2 w.y
  let m := mat4.set m 2 2 w.z
  let m := mat4.set m 3 0 (-dot u position)
  let m := mat4.set m 3 1 (-dot v position)
  let m := mat4.set m 3 2 (-dot w position)
  { c with m_position := position, m_direction := rotation, m_view_matrix := m }

/-- `camera::set_view_XYZ` (camera.cpp 97-125). -/
def set_view_XYZ (cos sin : F → F) (position rotation : vec3 F) (c : camera F) : camera F :=
  let c1 := cos rotation.x
  let c2 := cos rotation.y
  let c3 := cos rotation.z
  let s1 := sin rotation.x
  let s2 := sin rotation.y
  let s3 := sin rotation.z
  let u : vec3 F := ⟨c2 * c3, -c2 * s3, s2⟩
  let v : vec3 F := ⟨c1 * s3 + c3 * s1 * s2, c3 * c1 - s1 * s2 * s3, -c2 * s1⟩
  let w : vec3 F := ⟨s1 * s3 - c1 * c3 * s2, c1 * s2 * s3 + c3 * s1, c1 * c2⟩
  let m := mat4.diag 1
  let m := mat4.set m 0 0 u.x
  let m := mat4.set m 1 0 u.y
  let m := mat4.set m 2 0 u.z
  let m := mat4.set m 0 1 v.x
  let m := mat4.set m 1 1 v.y
  let m := mat4.set m 2 1 v.z
  let m := mat4.set m 0 2 w.x
  let m := mat4.set m 1 2 w.y
  let m := mat4.set m 2 2 w.z
  let m := mat4.set m 3 0 (-dot u position)
  let m := mat4.set m 3 1 (-dot v position)
  let m := mat4.set m 3 2 (-dot w position)
  { c with m_position := position, m_direction := rotation, m_view_matrix := m }

end pose

section ops

variable {F : Type} [LinearOrderedField F]

/-- `camera::set_orthographic_projection` (camera.cpp 127-141). -/
def set_orthographic_projection (left right top bottom near far : F) (c : camera F) :
    camera F :=
  let m := mat4.diag 1
  let m := mat4.set m 0 0 (2 / (right - left))
  let m := mat4.set m 1 1 (2 / (bottom - top))
  let m := mat4.set m 2 2 (1 / (far - near))
  let m := mat4.set m 3 0 (-(right + left) / (right - left))
  let m := mat4.set m 3 1 (-(bottom + top) / (bottom - top))
  let m := mat4.set m 3 2 (-near / (far - near))
  { c with m_clipping_near := near, m_clipping_far := far, m_projection_matrix := m }

/-- `camera::set_perspective_projection` (camera.cpp 143-160); `none` is the halt of the
failed `ASSERT`, and `glm::abs` is the absolute value. -/
def set_perspective_projection (tan : F → F) (fov_y aspect_ratio near far : F)
    (c : camera F) : Option (camera F) :=
  ASSERT (decide (|aspect_ratio - epsilon| > 0)) <|
    let tanHalfFovy := tan (fov_y / 2)
    let m := mat4.diag 0
    let m := mat4.set m 0 0 (1 / (aspect_ratio * tanHalfFovy))
    let m := mat4.set m 1 1 (1 / tanHalfFovy)
    let m := mat4.set m 2 2 (far / (far - near))
    let m := mat4.set m 2 3 1
    let m := mat4.set m 3 2 (-(far * near) / (far - near))
    some { c with
      m_projection_matrix := m
      m_perspective_fov_y := fov_y
      m_perspective_aspect_ratio := aspect_ratio
      m_clipping_near := near
      m_clipping_far := far }

/-- Modelled from the spec: `camera::update_perspective_projection` is declared in
`camera.h`, which is not part of the sources at hand.  Spec 4.7: "a full recompute of
the perspective matrix using the currently stored fov_y/aspect_ratio/near/far (the
recompute reuses exactly the formula in 4.6)". -/
def update_perspective_projection (tan : F → F) (c : camera F) : Option (camera F) :=
  set_perspective_projection tan c.m_perspective_fov_y c.m_perspective_aspect_ratio
    c.m_clipping_near c.m_clipping_far c

/-- `camera::set_aspect_ratio` (camera.cpp 162-168). -/
def set_aspect_ratio (tan : F → F) (aspect_ratio : F) (c : camera F) : Option (camera F) :=
  update_perspective_projection tan { c with m_perspective_aspect_ratio := aspect_ratio }

/-- `camera::set_fov_y` (camera.cpp 170-176). -/
def set_fov_y (tan : F → F) (fov_y : F) (c : camera F) : Option (camera F) :=
  update_perspective_projection tan { c with m_perspective_fov_y := fov_y }

/-- `camera::auto_calc_fov` (camera.cpp 178-186). -/
def auto_calc_fov (tan atan : F → F) (pi : F) (image_size : vec2 F) (c : camera F) :
    camera F :=
  let desired_horizontal_fov_deg : F := 100
  let hfov_rad := radians pi desired_horizontal_fov_deg
  let aspect_ratio := image_size.x / image_size.y
  let vfov_rad := 2 * atan (tan (hfov_rad / 2) * (1 / aspect_ratio))
  { c with m_perspective_fov_y := degrees pi vfov_rad }

end ops

/-! ## Reading a matrix -/

section reading

variable {F : Type} [Zero F] [One F]

/-- Row `r` of the upper-left 3×3 block of a matrix: the entries `m[0][r]`, `m[1][r]`,
`m[2][r]`. -/
def block_row (m : mat4 F) (r : Fin 4) : vec3 F :=
  ⟨m 0 r, m 1 r, m 2 r⟩

/-- The upper-left 3×3 block of a matrix as a Mathlib matrix; row `r`, column `k` is
`m[k][r]`. -/
def rotation_block (m : mat4 F) : Matrix (Fin 3) (Fin 3) F :=
  fun r k => m k.castSucc r.castSucc

/-- Modelled from the spec: the default-constructed camera (the member initialisers are
in `camera.h`, which is not part of the sources at hand), "identity-like matrices and
zeroed parameters".  It only serves as a concrete prior state in examples. -/
def camera.initial : camera F :=
  { m_position := ⟨0, 0, 0⟩
    m_direction := ⟨0, 0, 0⟩
    m_view_matrix := mat4.diag 1
    m_projection_matrix := mat4.diag 1
    m_clipping_near := 0
    m_clipping_far := 0
    m_perspective_fov_y := 0
    m_perspective_aspect_ratio := 0 }

end reading

/-! ## Elemental rotations (specification side) -/

section elemental

variable {F : Type} [LinearOrderedField F]

/-- Specification side: the elemental rotation by the angle `t` about the X axis,
`Rx(t)`, in the usual right-handed form. -/
def Rx (cos sin : F → F) (t : F) : Matrix (Fin 3) (Fin 3) F :=
  !![1, 0, 0; 0, cos t, -sin t; 0, sin t, cos t]

/-- Specification side: the elemental rotation by the angle `t` about the Y axis,
`Ry(t)`. -/
def Ry (cos sin : F → F) (t : F) : Matrix (Fin 3) (Fin 3) F :=
  !![cos t, 0, sin t; 0, 1, 0; -sin t, 0, cos t]

/-- Specification side: the elemental rotation by the angle `t` about the Z axis,
`Rz(t)`. -/
def Rz (cos sin : F → F) (t : F) : Matrix (Fin 3) (Fin 3) F :=
  !![cos t, -sin t, 0; sin t, cos t, 0; 0, 0, 1]

/-- Specification side: the 3×3 matrix whose columns are the vectors `u`, `v`, `w`. -/
def of_columns (u v w : vec3 F) : Matrix (Fin 3) (Fin 3) F :=
  !![u.x, v.x, w.x; u.y, v.y, w.y; u.z, v.z, w.z]

end elemental

/-! ## `set_view_target` and `set_view_direction` -/

section view_target

variable {F : Type} [LinearOrderedField F]

theorem vec3.sub_eq_zero_iff (a b : vec3 F) : a.sub b = ⟨0, 0, 0⟩ ↔ a = b := by
  cases a; cases b
  simp [vec3.sub, sub_eq_zero]

/-- C1: for every position `p`, target `t ≠ p`, up vector, square-root function and prior
camera state, `set_view_target p t up` leaves the camera in exactly the state that
`set_view_direction p (t - p) up` produces from the same prior state (all fields, in
particular view matrix, stored position and stored orientation). -/
theorem set_view_target_eq_set_view_direction (sqrt : F → F) (p t up : vec3 F)
    (c : camera F) (h : t ≠ p) :
    set_view_target sqrt p t up c = set_view_direction sqrt p (t.sub p) up c := by
  have hne : t.sub p ≠ ⟨0, 0, 0⟩ := fun h0 => h ((vec3.sub_eq_zero_iff t p).1 h0)
  simp [set_view_target, VALIDATE, hne]

/-- Witness of C1 at `p = (0,0,0)`, `t = (0,0,1)`, `up = (0,1,0)` over the reals. -/
theorem set_view_target_eq_set_view_direction_witness :
    (⟨0, 0, 1⟩ : vec3 ℝ) ≠ ⟨0, 0, 0⟩ ∧
    set_view_target Real.sqrt ⟨0, 0, 0⟩ ⟨0, 0, 1⟩ ⟨0, 1, 0⟩ (camera.initial : camera ℝ) =
      set_view_direction Real.sqrt ⟨0, 0, 0⟩
        ((⟨0, 0, 1⟩ : vec3 ℝ).sub ⟨0, 0, 0⟩) ⟨0, 1, 0⟩ camera.initial :=
  ⟨by simp, set_view_target_eq_set_view_direction Real.sqrt _ _ _ _ (by simp)⟩

/-- In exact arithmetic, where every coordinate is a finite value of a field,
`set_view_target p p up` returns the camera unchanged: `p - p = 0`, the validation fails
and the function returns before any assignment. -/
theorem set_view_target_same_position (sqrt : F → F) (p up : vec3 F) (c : camera F) :
    set_view_target sqrt p p up c = c := by
  have h0 : p.sub p = ⟨0, 0, 0⟩ := (vec3.sub_eq_zero_iff p p).2 rfl
  simp [set_view_target, VALIDATE, h0]

theorem f32.zero_eq_finite : (0 : f32 F) = f32.finite 0 := rfl

theorem f32.finite_sub_finite (x y : F) :
    f32.finite x - f32.finite y = f32.finite (x - y) := by
  show f32.add (f32.finite x) (f32.neg (f32.finite y)) = _
  simp [f32.add, f32.neg, sub_eq_add_neg]

theorem f32.inf_sub_inf : (f32.inf : f32 F) - f32.inf = f32.nan := rfl

/-- With floats, `set_view_target p p up` still returns the camera unchanged whenever
all three coordinates of `p` are finite. -/
theorem set_view_target_same_finite_position (sqrt : f32 F → f32 F) (x y z : F)
    (up : vec3 (f32 F)) (c : camera (f32 F)) :
    set_view_target sqrt ⟨f32.finite x, f32.finite y, f32.finite z⟩
      ⟨f32.finite x, f32.finite y, f32.finite z⟩ up c = c := by
  simp [set_view_target, VALIDATE, vec3.sub, f32.finite_sub_finite, f32.zero_eq_finite]

/-- C2, the code at the failing input `position = target = (+inf, 0, 0)` with floats:
`target - position` is `(NaN, 0, 0)`, which `!=` finds unequal to the zero vector, so the
validation passes and `set_view_target` is the call of `set_view_direction` with the
direction `(NaN, 0, 0)`: the stored position becomes `(+inf, 0, 0)`, the stored
orientation `(NaN, 0, 0)`, and the state is no longer the prior one (shown on the initial
camera) although target and position are identical. -/
theorem set_view_target_same_infinite_position (sqrt : f32 F → f32 F) (up : vec3 (f32 F))
    (c : camera (f32 F)) :
    (⟨f32.inf, 0, 0⟩ : vec3 (f32 F)).sub ⟨f32.inf, 0, 0⟩ = ⟨f32.nan, 0, 0⟩ ∧
    set_view_target sqrt ⟨f32.inf, 0, 0⟩ ⟨f32.inf, 0, 0⟩ up c =
      set_view_direction sqrt ⟨f32.inf, 0, 0⟩ ⟨f32.nan, 0, 0⟩ up c ∧
    (set_view_target sqrt ⟨f32.inf, 0, 0⟩ ⟨f32.inf, 0, 0⟩ up c).m_position =
      ⟨f32.inf, 0, 0⟩ ∧
    (set_view_target sqrt ⟨f32.inf, 0, 0⟩ ⟨f32.inf, 0, 0⟩ up c).m_direction =
      ⟨f32.nan, 0, 0⟩ ∧
    set_view_target sqrt ⟨f32.inf, 0, 0⟩ ⟨f32.inf, 0, 0⟩ up camera.initial ≠
      camera.initial := by
  have hsub : (⟨f32.inf, 0, 0⟩ : vec3 (f32 F)).sub ⟨f32.inf, 0, 0⟩ = ⟨f32.nan, 0, 0⟩ := by
    simp [vec3.sub, f32.inf_sub_inf, f32.zero_eq_finite, f32.finite_sub_finite]
  have hcall : ∀ c : camera (f32 F),
      set_view_target sqrt ⟨f32.inf, 0, 0⟩ ⟨f32.inf, 0, 0⟩ up c =
        set_view_direction sqrt ⟨f32.inf, 0, 0⟩ ⟨f32.nan, 0, 0⟩ up c := by
    intro c
    have hne : (⟨f32.inf, 0, 0⟩ : vec3 (f32 F)).sub ⟨f32.inf, 0, 0⟩ ≠ ⟨0, 0, 0⟩ := by
      rw [hsub]
      intro h
      have hx := congrArg vec3.x h
      simp [f32.zero_eq_finite] at hx
    rw [set_view_target, VALIDATE, if_pos (decide_eq_true hne), hsub]
  refine ⟨hsub, hcall c, ?_, ?_, ?_⟩
  · rw [hcall]; rfl
  · rw [hcall]; rfl
  · rw [hcall]
    intro h
    have hp := congrArg camera.m_position h
    simp [set_view_direction, camera.initial, f32.zero_eq_finite] at hp

end view_target

/-! ## The basis built by `set_view_direction` -/

section basis

variable {F : Type} [LinearOrderedField F]

theorem dot_smul_smul (a b : vec3 F) (k l : F) :
    dot (a.smul k) (b.smul l) = k * l * dot a b := by
  simp only [dot, vec3.smul]; ring

theorem cross_smul_left (a b : vec3 F) (k : F) :
    cross (a.smul k) b = (cross a b).smul k := by
  simp only [cross, vec3.smul, vec3.mk.injEq]
  refine ⟨?_, ?_, ?_⟩ <;> ring

theorem dot_cross_self (a b : vec3 F) : dot a (cross a b) = 0 := by
  simp only [dot, cross]; ring

/-- Lagrange's identity for the cross product. -/
theorem dot_cross_cross (a b : vec3 F) :
    dot (cross a b) (cross a b) = dot a a * dot b b - dot a b * dot a b := by
  simp only [dot, cross]; ring

theorem dot_cross_right (a b : vec3 F) : dot b (cross a b) = 0 := by
  simp only [dot, cross]; ring

/-- The triple product expansion `b × (a × b) = a (b·b) - b (b·a)`. -/
theorem cross_cross_self (a b : vec3 F) :
    cross b (cross a b) = (a.smul (dot b b)).sub (b.smul (dot b a)) := by
  simp only [cross, dot, vec3.smul, vec3.sub, vec3.mk.injEq]
  refine ⟨?_, ?_, ?_⟩ <;> ring

theorem dot_self_pos (a : vec3 F) (h : a ≠ ⟨0, 0, 0⟩) : 0 < dot a a := by
  obtain ⟨x, y, z⟩ := a
  have hne : ¬ (x = 0 ∧ y = 0 ∧ z = 0) := by
    rintro ⟨rfl, rfl, rfl⟩; exact h rfl
  have h0 : 0 ≤ x * x + y * y + z * z := by nlinarith [mul_self_nonneg x, mul_self_nonneg y, mul_self_nonneg z]
  rcases h0.lt_or_eq with hlt | heq
  · simpa [dot] using hlt
  · exfalso; apply hne
    have hx : x * x = 0 := by nlinarith [mul_self_nonneg x, mul_self_nonneg y, mul_self_nonneg z]
    have hy : y * y = 0 := by nlinarith [mul_self_nonneg x, mul_self_nonneg y, mul_self_nonneg z]
    have hz : z * z = 0 := by nlinarith [mul_self_nonneg x, mul_self_nonneg y, mul_self_nonneg z]
    exact ⟨mul_self_eq_zero.1 hx, mul_self_eq_zero.1 hy, mul_self_eq_zero.1 hz⟩

theorem smul_ne_zero_vec (a : vec3 F) (k : F) (hk : k ≠ 0) (h : a ≠ ⟨0, 0, 0⟩) :
    a.smul k ≠ ⟨0, 0, 0⟩ := by
  obtain ⟨x, y, z⟩ := a
  intro h0
  apply h
  simp only [vec3.smul, vec3.mk.injEq, mul_eq_zero, hk, or_false] at h0
  simp [h0]

/-- Over the reals `glm::normalize` of a non-zero vector has unit length. -/
theorem dot_normalize_self (a : vec3 ℝ) (h : a ≠ ⟨0, 0, 0⟩) :
    dot (normalize Real.sqrt a) (normalize Real.sqrt a) = 1 := by
  have hpos := dot_self_pos a h
  have hs : 0 < Real.sqrt (dot a a) := Real.sqrt_pos.2 hpos
  have hss : Real.sqrt (dot a a) * Real.sqrt (dot a a) = dot a a :=
    Real.mul_self_sqrt hpos.le
  rw [normalize, dot_smul_smul, inversesqrt]
  field_simp

theorem inversesqrt_ne_zero (a : vec3 ℝ) (h : a ≠ ⟨0, 0, 0⟩) :
    inversesqrt Real.sqrt (dot a a) ≠ 0 := by
  have hs : 0 < Real.sqrt (dot a a) := Real.sqrt_pos.2 (dot_self_pos a h)
  exact (one_div_pos.2 hs).ne'

/-- The rows of the view matrix written by `set_view_direction` are `u`, `v`, `w`. -/
theorem set_view_direction_rows (sqrt : F → F) (p d up : vec3 F) (c : camera F) :
    let m := (set_view_direction sqrt p d up c).m_view_matrix
    let w := normalize sqrt d
    let u := normalize sqrt (cross w up)
    block_row m 0 = u ∧ block_row m 1 = cross w u ∧ block_row m 2 = w := by
  simp [set_view_direction, block_row, mat4.set]

theorem castSucc_two : Fin.castSucc (2 : Fin 3) = (2 : Fin 4) := rfl

theorem det_rotation_block (m : mat4 F) :
    (rotation_block m).det = dot (cross (block_row m 0) (block_row m 1)) (block_row m 2) := by
  simp only [Matrix.det_fin_three, rotation_block, dot, cross, block_row]
  simp only [Fin.castSucc_zero, Fin.castSucc_one, castSucc_two]
  ring

/-- A unit vector `w` and a unit vector `u` orthogonal to it, completed by `v = w × u`,
form a right-handed orthonormal triple `u, v, w`. -/
theorem orthonormal_of_unit_pair (u w : vec3 F) (hu : dot u u = 1) (hw : dot w w = 1)
    (hwu : dot w u = 0) :
    dot (cross w u) (cross w u) = 1 ∧ dot u (cross w u) = 0 ∧ dot u w = 0 ∧
      dot (cross w u) w = 0 ∧ cross u (cross w u) = w := by
  have huw : dot u w = 0 := by
    have : dot u w = dot w u := by simp only [dot]; ring
    rw [this, hwu]
  refine ⟨?_, dot_cross_right w u, huw, ?_, ?_⟩
  · rw [dot_cross_cross, hu, hw, hwu]; ring
  · have : dot (cross w u) w = dot w (cross w u) := by simp only [dot]; ring
    rw [this, dot_cross_self]
  · rw [cross_cross_self, hu, huw]
    obtain ⟨x, y, z⟩ := w
    simp [vec3.smul, vec3.sub]

/-- C3: over the reals, for every position, every non-zero direction and every up vector
with `cross direction up ≠ 0`, the three rows `u`, `v`, `w` of the upper-left 3×3 block of
the view matrix written by `set_view_direction` have unit length, are pairwise
orthogonal, and are right-handed: `cross u v = w` and the block has determinant `1`. -/
theorem set_view_direction_orthonormal (position direction up : vec3 ℝ) (c : camera ℝ)
    (hd : direction ≠ ⟨0, 0, 0⟩) (hup : cross direction up ≠ ⟨0, 0, 0⟩) :
    let m := (set_view_direction Real.sqrt position direction up c).m_view_matrix
    let u := block_row m 0
    let v := block_row m 1
    let w := block_row m 2
    (dot u u = 1 ∧ dot v v = 1 ∧ dot w w = 1) ∧
      (dot u v = 0 ∧ dot u w = 0 ∧ dot v w = 0) ∧
      cross u v = w ∧ (rotation_block m).det = 1 := by
  intro m u v w
  obtain ⟨hu, hv, hw⟩ := set_view_direction_rows Real.sqrt position direction up c
  have hww : dot (normalize Real.sqrt direction) (normalize Real.sqrt direction) = 1 :=
    dot_normalize_self direction hd
  have hcross : cross (normalize Real.sqrt direction) up ≠ ⟨0, 0, 0⟩ := by
    rw [normalize, cross_smul_left]
    exact smul_ne_zero_vec _ _ (inversesqrt_ne_zero direction hd) hup
  have huu := dot_normalize_self _ hcross
  have hwu : dot (normalize Real.sqrt direction)
      (normalize Real.sqrt (cross (normalize Real.sqrt direction) up)) = 0 := by
    have h1 : ∀ (a b : vec3 ℝ) (k : ℝ), dot a (b.smul k) = k * dot a b := by
      intro a b k; simp only [dot, vec3.smul]; ring
    have h2 : normalize Real.sqrt (cross (normalize Real.sqrt direction) up) =
        (cross (normalize Real.sqrt direction) up).smul
          (inversesqrt Real.sqrt (dot (cross (normalize Real.sqrt direction) up)
            (cross (normalize Real.sqrt direction) up))) := rfl
    rw [h2, h1, dot_cross_self, mul_zero]
  obtain ⟨h1, h2, h3, h4, h5⟩ := orthonormal_of_unit_pair _ _ huu hww hwu
  have hdet : (rotation_block m).det = 1 := by
    rw [det_rotation_block]
    show dot (cross u v) w = 1
    simp only [u, v, w]
    rw [hu, hv, hw, h5, hww]
  simp only [u, v, w]
  rw [hu, hv, hw]
  exact ⟨⟨huu, h1, hww⟩, ⟨h2, h3, h4⟩, h5, hdet⟩

/-- Witness of C3: looking along `+z` with `up = (0,1,0)` from the position `(1,2,3)`. -/
theorem set_view_direction_orthonormal_witness :
    ((⟨0, 0, 1⟩ : vec3 ℝ) ≠ ⟨0, 0, 0⟩ ∧ cross (⟨0, 0, 1⟩ : vec3 ℝ) ⟨0, 1, 0⟩ ≠ ⟨0, 0, 0⟩) ∧
    (let m := (set_view_direction Real.sqrt ⟨1, 2, 3⟩ ⟨0, 0, 1⟩ ⟨0, 1, 0⟩
        (camera.initial : camera ℝ)).m_view_matrix
     let u := block_row m 0
     let v := block_row m 1
     let w := block_row m 2
     (dot u u = 1 ∧ dot v v = 1 ∧ dot w w = 1) ∧
       (dot u v = 0 ∧ dot u w = 0 ∧ dot v w = 0) ∧
       cross u v = w ∧ (rotation_block m).det = 1) :=
  ⟨⟨by simp, by simp [cross]⟩,
    set_view_direction_orthonormal ⟨1, 2, 3⟩ ⟨0, 0, 1⟩ ⟨0, 1, 0⟩ camera.initial
      (by simp) (by simp [cross])⟩

end basis

/-! ## Euler-angle poses at zero rotation -/

section euler

/-- C4: for every position `p` (and prior state), `set_view_YXZ p (0,0,0)` and
`set_view_XYZ p (0,0,0)` each produce the view matrix that is the 4×4 identity except
for the translation entries `[3][0]`, `[3][1]`, `[3][2]`, which are `-p.x`, `-p.y`,
`-p.z`; in particular the upper-left 3×3 block is the identity. -/
theorem set_view_zero_rotation (p : vec3 ℝ) (c : camera ℝ) :
    ((set_view_YXZ Real.cos Real.sin p ⟨0, 0, 0⟩ c).m_view_matrix =
        mat4.set (mat4.set (mat4.set (mat4.diag 1) 3 0 (-p.x)) 3 1 (-p.y)) 3 2 (-p.z) ∧
      rotation_block (set_view_YXZ Real.cos Real.sin p ⟨0, 0, 0⟩ c).m_view_matrix = 1) ∧
    ((set_view_XYZ Real.cos Real.sin p ⟨0, 0, 0⟩ c).m_view_matrix =
        mat4.set (mat4.set (mat4.set (mat4.diag 1) 3 0 (-p.x)) 3 1 (-p.y)) 3 2 (-p.z) ∧
      rotation_block (set_view_XYZ Real.cos Real.sin p ⟨0, 0, 0⟩ c).m_view_matrix = 1) := by
  refine ⟨⟨?_, ?_⟩, ⟨?_, ?_⟩⟩
  · funext i j
    fin_cases i <;> fin_cases j <;> simp [set_view_YXZ, mat4.set, mat4.diag, dot]
  · funext i j
    fin_cases i <;> fin_cases j <;>
      simp [rotation_block, set_view_YXZ, mat4.set, mat4.diag, dot, Matrix.one_apply,
        castSucc_two]
  · funext i j
    fin_cases i <;> fin_cases j <;> simp [set_view_XYZ, mat4.set, mat4.diag, dot]
  · funext i j
    fin_cases i <;> fin_cases j <;>
      simp [rotation_block, set_view_XYZ, mat4.set, mat4.diag, dot, Matrix.one_apply,
        castSucc_two]

end euler

/-! ## Orthographic projection -/

section orthographic

variable {F : Type} [LinearOrderedField F]

/-- C5: for all `left ≠ right`, `top ≠ bottom`, `near ≠ far`, the projection matrix set by
`set_orthographic_projection left right top bottom near far` has the diagonal
`2/(right-left)`, `2/(bottom-top)`, `1/(far-near)`, `1`, the translation entries
`[3][0..2]` equal to `-(right+left)/(right-left)`, `-(bottom+top)/(bottom-top)`,
`-near/(far-near)`, every other entry zero, and `near`, `far` are stored as
`clipping_near`, `clipping_far`. -/
theorem set_orthographic_projection_entries (left right top bottom near far : F)
    (c : camera F) (_hx : left ≠ right) (_hy : top ≠ bottom) (_hz : near ≠ far) :
    let c1 := set_orthographic_projection left right top bottom near far c
    let m := c1.m_projection_matrix
    (m 0 0 = 2 / (right - left) ∧ m 1 1 = 2 / (bottom - top) ∧
        m 2 2 = 1 / (far - near) ∧ m 3 3 = 1) ∧
      (m 3 0 = -(right + left) / (right - left) ∧ m 3 1 = -(bottom + top) / (bottom - top) ∧
        m 3 2 = -near / (far - near)) ∧
      (∀ i j : Fin 4, i ≠ j → i ≠ 3 → m i j = 0) ∧
      c1.m_clipping_near = near ∧ c1.m_clipping_far = far := by
  intro c1 m
  refine ⟨⟨?_, ?_, ?_, ?_⟩, ⟨?_, ?_, ?_⟩, ?_, rfl, rfl⟩
  · simp [m, c1, set_orthographic_projection, mat4.set, mat4.diag]
  · simp [m, c1, set_orthographic_projection, mat4.set, mat4.diag]
  · simp [m, c1, set_orthographic_projection, mat4.set, mat4.diag]
  · simp [m, c1, set_orthographic_projection, mat4.set, mat4.diag]
  · simp [m, c1, set_orthographic_projection, mat4.set, mat4.diag]
  · simp [m, c1, set_orthographic_projection, mat4.set, mat4.diag]
  · simp [m, c1, set_orthographic_projection, mat4.set, mat4.diag]
  · intro i j hij hi
    fin_cases i <;> fin_cases j <;>
      simp_all [m, c1, set_orthographic_projection, mat4.set, mat4.diag]

/-- Witness of C5, the instance named in the claim: for `(-1, 1, 1, -1, 0.1, 100)` over
the reals the diagonal is `1`, `-1`, `1/99.9` and the translation `(0, 0, -0.1/99.9)`. -/
theorem set_orthographic_projection_entries_witness :
    ((-1 : ℝ) ≠ 1 ∧ (1 : ℝ) ≠ -1 ∧ (0.1 : ℝ) ≠ 100) ∧
    (let c1 := set_orthographic_projection (-1) 1 1 (-1) 0.1 100 (camera.initial : camera ℝ)
     let m := c1.m_projection_matrix
     (m 0 0 = 1 ∧ m 1 1 = -1 ∧ m 2 2 = 1 / 99.9 ∧ m 3 3 = 1) ∧
       (m 3 0 = 0 ∧ m 3 1 = 0 ∧ m 3 2 = -0.1 / 99.9) ∧
       (∀ i j : Fin 4, i ≠ j → i ≠ 3 → m i j = 0) ∧
       c1.m_clipping_near = 0.1 ∧ c1.m_clipping_far = 100) := by
  have h := set_orthographic_projection_entries (-1 : ℝ) 1 1 (-1) 0.1 100 camera.initial
    (by norm_num) (by norm_num) (by norm_num)
  refine ⟨⟨by norm_num, by norm_num, by norm_num⟩, ?_⟩
  obtain ⟨⟨h00, h11, h22, h33⟩, ⟨h30, h31, h32⟩, hz, hn, hf⟩ := h
  refine ⟨⟨?_, ?_, ?_, h33⟩, ⟨?_, ?_, ?_⟩, hz, hn, hf⟩
  · rw [h00]; norm_num
  · rw [h11]; norm_num
  · rw [h22]; norm_num
  · rw [h30]; norm_num
  · rw [h31]; norm_num
  · rw [h32]; norm_num

end orthographic

/-! ## Perspective projection -/

section perspective

variable {F : Type} [LinearOrderedField F]

theorem epsilon_pos : (0 : F) < epsilon := by
  unfold epsilon; positivity

/-- The assertion of `set_perspective_projection` passes exactly when
`aspect_ratio ≠ epsilon`; then the function returns this state. -/
theorem set_perspective_projection_of_ne (tan : F → F) (fov_y aspect_ratio near far : F)
    (c : camera F) (h : aspect_ratio ≠ epsilon) :
    set_perspective_projection tan fov_y aspect_ratio near far c =
      some { c with
        m_projection_matrix :=
          mat4.set (mat4.set (mat4.set (mat4.set (mat4.set (mat4.diag 0)
            0 0 (1 / (aspect_ratio * tan (fov_y / 2)))) 1 1 (1 / tan (fov_y / 2)))
            2 2 (far / (far - near))) 2 3 1) 3 2 (-(far * near) / (far - near))
        m_perspective_fov_y := fov_y
        m_perspective_aspect_ratio := aspect_ratio
        m_clipping_near := near
        m_clipping_far := far } := by
  have hpos : |aspect_ratio - epsilon| > 0 := abs_pos.2 (sub_ne_zero.2 h)
  simp [set_perspective_projection, ASSERT, hpos]

/-- At `aspect_ratio = epsilon` the assertion fails and `set_perspective_projection`
halts. -/
theorem set_perspective_projection_epsilon (tan : F → F) (fov_y near far : F) (c : camera F) :
    set_perspective_projection tan fov_y epsilon near far c = none := by
  simp [set_perspective_projection, ASSERT]

/-- C6, counterexample to the claim as stated: `aspect_ratio = epsilon` is non-zero and
`0.1 < 100`, but `set_perspective_projection (π/2) epsilon 0.1 100` fails its assertion
and yields no matrix. -/
theorem set_perspective_projection_epsilon_halts :
    (epsilon : ℝ) ≠ 0 ∧ (0.1 : ℝ) < 100 ∧
      set_perspective_projection Real.tan (Real.pi / 2) epsilon 0.1 100
        (camera.initial : camera ℝ) = none := by
  exact ⟨epsilon_pos.ne', by norm_num, set_perspective_projection_epsilon _ _ _ _ _⟩

/-- C6 (amended): for every `fov_y` with `tan (fov_y / 2) ≠ 0`, every
`aspect_ratio > epsilon` and `near < far`, `set_perspective_projection` returns a state
whose projection matrix has `[0][0] = 1/(aspect_ratio*tan(fov_y/2))`,
`[1][1] = 1/tan(fov_y/2)`, `[2][2] = far/(far-near)`, `[2][3] = 1`,
`[3][2] = -(far*near)/(far-near)` and every other entry (including `[3][3]`) zero, and
which stores `fov_y`, `aspect_ratio`, `near` and `far`. -/
theorem set_perspective_projection_entries (tan : F → F) (fov_y aspect_ratio near far : F)
    (c : camera F) (ha : epsilon < aspect_ratio) (_hfov : tan (fov_y / 2) ≠ 0)
    (_hnf : near < far) :
    ∃ c1, set_perspective_projection tan fov_y aspect_ratio near far c = some c1 ∧
      (c1.m_projection_matrix 0 0 = 1 / (aspect_ratio * tan (fov_y / 2)) ∧
        c1.m_projection_matrix 1 1 = 1 / tan (fov_y / 2) ∧
        c1.m_projection_matrix 2 2 = far / (far - near) ∧
        c1.m_projection_matrix 2 3 = 1 ∧
        c1.m_projection_matrix 3 2 = -(far * near) / (far - near)) ∧
      (∀ i j : Fin 4, (i, j) ∉ [((0 : Fin 4), (0 : Fin 4)), (1, 1), (2, 2), (2, 3), (3, 2)] →
        c1.m_projection_matrix i j = 0) ∧
      (c1.m_perspective_fov_y = fov_y ∧ c1.m_perspective_aspect_ratio = aspect_ratio ∧
        c1.m_clipping_near = near ∧ c1.m_clipping_far = far) := by
  refine ⟨_, set_perspective_projection_of_ne tan fov_y aspect_ratio near far c ha.ne',
    ⟨?_, ?_, ?_, ?_, ?_⟩, ?_, rfl, rfl, rfl, rfl⟩
  · simp [mat4.set, mat4.diag]
  · simp [mat4.set, mat4.diag]
  · simp [mat4.set, mat4.diag]
  · simp [mat4.set, mat4.diag]
  · simp [mat4.set, mat4.diag]
  · intro i j hij
    fin_cases i <;> fin_cases j <;> simp_all [mat4.set, mat4.diag]

/-- Witness of C6, the instance named in the claim: for `fov_y = π/2` (90°), aspect `1`,
near `0.1`, far `100` over the reals, `[0][0] = [1][1] = 1`, `[2][3] = 1`, `[3][3] = 0`. -/
theorem set_perspective_projection_entries_witness :
    ((epsilon : ℝ) < 1 ∧ Real.tan (Real.pi / 2 / 2) ≠ 0 ∧ (0.1 : ℝ) < 100) ∧
    ∃ c1, set_perspective_projection Real.tan (Real.pi / 2) 1 0.1 100
        (camera.initial : camera ℝ) = some c1 ∧
      c1.m_projection_matrix 0 0 = 1 ∧ c1.m_projection_matrix 1 1 = 1 ∧
      c1.m_projection_matrix 2 3 = 1 ∧ c1.m_projection_matrix 3 3 = 0 := by
  have htan : Real.tan (Real.pi / 2 / 2) = 1 := by
    rw [show Real.pi / 2 / 2 = Real.pi / 4 by ring, Real.tan_pi_div_four]
  have heps : (epsilon : ℝ) < 1 := by unfold epsilon; norm_num
  have h0 : Real.tan (Real.pi / 2 / 2) ≠ 0 := by rw [htan]; exact one_ne_zero
  refine ⟨⟨heps, h0, by norm_num⟩, ?_⟩
  obtain ⟨c1, hc1, ⟨h00, h11, -, h23, -⟩, hz, -⟩ :=
    set_perspective_projection_entries Real.tan (Real.pi / 2) 1 0.1 100
      (camera.initial : camera ℝ) heps h0 (by norm_num)
  refine ⟨c1, hc1, ?_, ?_, h23, hz 3 3 (by decide)⟩
  · rw [h00, htan]; norm_num
  · rw [h11, htan]; norm_num

end perspective

/-! ## Parameter updates -/

section updates

variable {F : Type} [LinearOrderedField F]

/-- C7: after an initial `set_perspective_projection f0 a0 n fr` that returned, calling
`set_aspect_ratio a1` and then `set_fov_y f1` gives the same outcome as the single call
`set_perspective_projection f1 a1 n fr` on the original state: the same halt when the
assertion rejects `a1`, and otherwise the same camera state (projection matrix, stored
fov, aspect ratio, near and far, and all remaining fields); when the assertion accepts
`a1` the sequence does return a state. -/
theorem set_aspect_ratio_then_set_fov_y (tan : F → F) (f0 a0 n fr a1 f1 : F) (c0 : camera F)
    (h0 : (set_perspective_projection tan f0 a0 n fr c0).isSome = true) :
    (((set_perspective_projection tan f0 a0 n fr c0).bind (set_aspect_ratio tan a1)).bind
        (set_fov_y tan f1) = set_perspective_projection tan f1 a1 n fr c0) ∧
      (a1 ≠ epsilon →
        (((set_perspective_projection tan f0 a0 n fr c0).bind (set_aspect_ratio tan a1)).bind
          (set_fov_y tan f1)).isSome = true) := by
  have ha0 : a0 ≠ epsilon := by
    rintro rfl
    rw [set_perspective_projection_epsilon] at h0
    simp at h0
  have key : ((set_perspective_projection tan f0 a0 n fr c0).bind (set_aspect_ratio tan a1)).bind
      (set_fov_y tan f1) = set_perspective_projection tan f1 a1 n fr c0 := by
    rw [set_perspective_projection_of_ne tan f0 a0 n fr c0 ha0]
    by_cases h1 : a1 = epsilon
    · subst h1
      simp [set_aspect_ratio, update_perspective_projection,
        set_perspective_projection_epsilon]
    · simp [set_aspect_ratio, set_fov_y, update_perspective_projection,
        set_perspective_projection_of_ne, h1]
  refine ⟨key, fun h1 => ?_⟩
  rw [key, set_perspective_projection_of_ne tan f1 a1 n fr c0 h1]
  rfl

/-- Witness of C7: initial setup `(π/2, 1, 0.1, 100)`, then aspect ratio `16/9` and
vertical field of view `π/3`. -/
theorem set_aspect_ratio_then_set_fov_y_witness :
    (set_perspective_projection Real.tan (Real.pi / 2) 1 0.1 100
        (camera.initial : camera ℝ)).isSome = true ∧
    ((((set_perspective_projection Real.tan (Real.pi / 2) 1 0.1 100
          (camera.initial : camera ℝ)).bind (set_aspect_ratio Real.tan (16 / 9))).bind
        (set_fov_y Real.tan (Real.pi / 3)) =
        set_perspective_projection Real.tan (Real.pi / 3) (16 / 9) 0.1 100 camera.initial) ∧
      ((16 / 9 : ℝ) ≠ epsilon →
        (((set_perspective_projection Real.tan (Real.pi / 2) 1 0.1 100
          (camera.initial : camera ℝ)).bind (set_aspect_ratio Real.tan (16 / 9))).bind
          (set_fov_y Real.tan (Real.pi / 3))).isSome = true)) := by
  have h1 : (1 : ℝ) ≠ epsilon := by unfold epsilon; norm_num
  have h0 : (set_perspective_projection Real.tan (Real.pi / 2) 1 0.1 100
      (camera.initial : camera ℝ)).isSome = true := by
    rw [set_perspective_projection_of_ne _ _ _ _ _ _ h1]; rfl
  exact ⟨h0, set_aspect_ratio_then_set_fov_y Real.tan (Real.pi / 2) 1 0.1 100 (16 / 9)
    (Real.pi / 3) camera.initial h0⟩

end updates

/-! ## Field-of-view derivation -/

section fov

/-- C8: for every `image_size` with `x > y > 0`, `auto_calc_fov image_size` stores in
`perspective_fov_y` the value `2 * atan (tan 50° / (x / y))` converted to degrees, this
value is strictly between `0` and `100`, and the projection matrix is left unchanged. -/
theorem auto_calc_fov_vertical (image_size : vec2 ℝ) (c : camera ℝ)
    (hy : 0 < image_size.y) (hxy : image_size.y < image_size.x) :
    let c1 := auto_calc_fov Real.tan Real.arctan Real.pi image_size c
    c1.m_perspective_fov_y =
        degrees Real.pi
          (2 * Real.arctan (Real.tan (radians Real.pi 50) / (image_size.x / image_size.y))) ∧
      0 < c1.m_perspective_fov_y ∧ c1.m_perspective_fov_y < 100 ∧
      c1.m_projection_matrix = c.m_projection_matrix := by
  intro c1
  have hpi := Real.pi_pos
  have hx : 0 < image_size.x := hy.trans hxy
  have hhalf : radians Real.pi (100 : ℝ) / 2 = radians Real.pi 50 := by
    unfold radians; ring
  have hval : c1.m_perspective_fov_y =
      degrees Real.pi
        (2 * Real.arctan (Real.tan (radians Real.pi 50) / (image_size.x / image_size.y))) := by
    show degrees Real.pi (2 * Real.arctan (Real.tan (radians Real.pi 100 / 2) *
      (1 / (image_size.x / image_size.y)))) = _
    rw [hhalf, mul_one_div]
  -- the half angle 50° lies strictly between 0 and π/2
  have h50pos : 0 < radians Real.pi (50 : ℝ) := by unfold radians; positivity
  have h50lt : radians Real.pi (50 : ℝ) < Real.pi / 2 := by unfold radians; linarith
  have htan : 0 < Real.tan (radians Real.pi 50) :=
    Real.tan_pos_of_pos_of_lt_pi_div_two h50pos h50lt
  have hasp : 1 < image_size.x / image_size.y := (one_lt_div hy).2 hxy
  have hpos : 0 < Real.tan (radians Real.pi 50) / (image_size.x / image_size.y) :=
    div_pos htan (div_pos hx hy)
  have hlt : Real.tan (radians Real.pi 50) / (image_size.x / image_size.y) <
      Real.tan (radians Real.pi 50) := div_lt_self htan hasp
  have hatan_pos :
      0 < Real.arctan (Real.tan (radians Real.pi 50) / (image_size.x / image_size.y)) := by
    have := Real.arctan_strictMono hpos
    rwa [Real.arctan_zero] at this
  have hatan_lt :
      Real.arctan (Real.tan (radians Real.pi 50) / (image_size.x / image_size.y)) <
        radians Real.pi 50 := by
    have := Real.arctan_strictMono hlt
    rwa [Real.arctan_tan (by linarith) h50lt] at this
  refine ⟨hval, ?_, ?_, rfl⟩
  · rw [hval]; unfold degrees; positivity
  · rw [hval]
    unfold degrees
    have hscale : (0 : ℝ) < 180 / Real.pi := by positivity
    have hfull : 2 * radians Real.pi (50 : ℝ) * (180 / Real.pi) = 100 := by
      unfold radians; field_simp; ring
    have hstep := mul_lt_mul_of_pos_right
      (mul_lt_mul_of_pos_left hatan_lt (two_pos : (0 : ℝ) < 2)) hscale
    rwa [hfull] at hstep

/-- Witness of C8 at the image size `(1920, 1080)` named in the claim. -/
theorem auto_calc_fov_vertical_witness :
    ((0 : ℝ) < 1080 ∧ (1080 : ℝ) < 1920) ∧
    (let c1 := auto_calc_fov Real.tan Real.arctan Real.pi ⟨1920, 1080⟩
        (camera.initial : camera ℝ)
     c1.m_perspective_fov_y =
        degrees Real.pi (2 * Real.arctan (Real.tan (radians Real.pi 50) / (1920 / 1080))) ∧
      0 < c1.m_perspective_fov_y ∧ c1.m_perspective_fov_y < 100 ∧
      c1.m_projection_matrix = (camera.initial : camera ℝ).m_projection_matrix) :=
  ⟨⟨by norm_num, by norm_num⟩,
    auto_calc_fov_vertical ⟨1920, 1080⟩ camera.initial (by norm_num) (by norm_num)⟩

end fov

/-! ## Preconditions -/

section preconditions

variable {F : Type} [LinearOrderedField F]

/-- C9, the code at the failing input `aspect_ratio = 0` (so `aspect_ratio - epsilon ≤ 0`):
the asserted condition `|aspect_ratio - epsilon| > 0` holds,
`set_perspective_projection (π/2) 0 0.1 100` returns a state, and its entry `[0][0]` is
the quotient `1 / (0 * tan (fov_y / 2))`, a division by zero. -/
theorem set_perspective_projection_accepts_zero_aspect :
    (0 : ℝ) - epsilon ≤ 0 ∧ |(0 : ℝ) - epsilon| > 0 ∧
      ∃ c1, set_perspective_projection Real.tan (Real.pi / 2) 0 0.1 100
          (camera.initial : camera ℝ) = some c1 ∧
        c1.m_projection_matrix 0 0 = 1 / (0 * Real.tan (Real.pi / 2 / 2)) ∧
        c1.m_perspective_aspect_ratio = 0 := by
  have hpos : (0 : ℝ) < epsilon := epsilon_pos
  have h0 : (0 : ℝ) ≠ epsilon := hpos.ne
  refine ⟨by linarith, abs_pos.2 (sub_ne_zero.2 h0), _,
    set_perspective_projection_of_ne _ _ _ _ _ _ h0, ?_, rfl⟩
  simp [mat4.set]

/-- C10, counterexample to the claim as stated: called with `near = 5 ≥ far = 1`,
`set_clipping_dist`, `set_orthographic_projection` and `set_perspective_projection` all
return normally, and in each returned state `clipping_near < clipping_far` is false. -/
theorem clipping_order_not_enforced :
    ¬ ((set_clipping_dist 5 1 (camera.initial : camera ℚ)).m_clipping_near <
        (set_clipping_dist 5 1 (camera.initial : camera ℚ)).m_clipping_far) ∧
    ¬ ((set_orthographic_projection (-1) 1 1 (-1) 5 1 (camera.initial : camera ℚ)).m_clipping_near <
        (set_orthographic_projection (-1) 1 1 (-1) 5 1
          (camera.initial : camera ℚ)).m_clipping_far) ∧
    ∃ c1, set_perspective_projection (fun x => x) 2 1 5 1 (camera.initial : camera ℚ) = some c1 ∧
      ¬ (c1.m_clipping_near < c1.m_clipping_far) := by
  have h1 : (1 : ℚ) ≠ epsilon := by unfold epsilon; norm_num
  refine ⟨?_, ?_, _, set_perspective_projection_of_ne _ _ _ _ _ _ h1, ?_⟩
  · simp [set_clipping_dist]
  · simp [set_orthographic_projection]
  · simp

/-- C10 (amended): none of the three operations compares `near` with `far`.
`set_clipping_dist` and `set_orthographic_projection` always return, and
`set_perspective_projection` returns whenever its aspect-ratio assertion passes
(`aspect_ratio ≠ epsilon`); the
returned state has `clipping_near = near` and `clipping_far = far`, so
`clipping_near < clipping_far` holds in it exactly when `near < far` was passed. -/
theorem clipping_stored_as_passed (tan : F → F) (near far : F) (c : camera F) :
    ((set_clipping_dist near far c).m_clipping_near = near ∧
      (set_clipping_dist near far c).m_clipping_far = far ∧
      ((set_clipping_dist near far c).m_clipping_near <
        (set_clipping_dist near far c).m_clipping_far ↔ near < far)) ∧
    (∀ left right top bottom : F,
      (set_orthographic_projection left right top bottom near far c).m_clipping_near = near ∧
      (set_orthographic_projection left right top bottom near far c).m_clipping_far = far ∧
      ((set_orthographic_projection left right top bottom near far c).m_clipping_near <
        (set_orthographic_projection left right top bottom near far c).m_clipping_far ↔
          near < far)) ∧
    (∀ fov_y aspect_ratio : F, aspect_ratio ≠ epsilon →
      ∃ c1, set_perspective_projection tan fov_y aspect_ratio near far c = some c1 ∧
        c1.m_clipping_near = near ∧ c1.m_clipping_far = far ∧
        (c1.m_clipping_near < c1.m_clipping_far ↔ near < far)) := by
  refine ⟨⟨rfl, rfl, Iff.rfl⟩, fun _ _ _ _ => ⟨rfl, rfl, Iff.rfl⟩, fun fov_y aspect_ratio h => ?_⟩
  exact ⟨_, set_perspective_projection_of_ne tan fov_y aspect_ratio near far c h,
    rfl, rfl, Iff.rfl⟩

end preconditions

/-! ## Clipping distances -/

section clipping

/-- C11: for every camera state and every `near_dis`, `far_dis`,
`set_clipping_dist near_dis far_dis` sets `clipping_near = near_dis` and
`clipping_far = far_dis` and leaves the projection matrix, the view matrix, the
position, the orientation, `perspective_fov_y` and `perspective_aspect_ratio` as they
were before the call. -/
theorem set_clipping_dist_frame {F : Type} (near_dis far_dis : F) (c : camera F) :
    ((set_clipping_dist near_dis far_dis c).m_clipping_near = near_dis ∧
      (set_clipping_dist near_dis far_dis c).m_clipping_far = far_dis) ∧
    (set_clipping_dist near_dis far_dis c).m_projection_matrix = c.m_projection_matrix ∧
    (set_clipping_dist near_dis far_dis c).m_view_matrix = c.m_view_matrix ∧
    (set_clipping_dist near_dis far_dis c).m_position = c.m_position ∧
    (set_clipping_dist near_dis far_dis c).m_direction = c.m_direction ∧
    (set_clipping_dist near_dis far_dis c).m_perspective_fov_y = c.m_perspective_fov_y ∧
    (set_clipping_dist near_dis far_dis c).m_perspective_aspect_ratio =
      c.m_perspective_aspect_ratio :=
  ⟨⟨rfl, rfl⟩, rfl, rfl, rfl, rfl, rfl, rfl⟩

end clipping

/-! ## Euler-angle poses as products of elemental rotations -/

/-- The block of a matrix has the block rows as rows: it is the transpose of the matrix
whose columns are the block rows. -/
theorem rotation_block_eq_transpose_of_columns {F : Type} (m : mat4 F) :
    rotation_block m = (of_columns (block_row m 0) (block_row m 1) (block_row m 2)).transpose := by
  funext i j
  fin_cases i <;> fin_cases j <;>
    simp [rotation_block, of_columns, block_row, Matrix.transpose_apply, castSucc_two]

section rotations

variable {F : Type} [LinearOrderedField F]

/-- The rows of the view matrix written by `set_view_YXZ` are its vectors `u`, `v`, `w`. -/
theorem set_view_YXZ_rows (cos sin : F → F) (p r : vec3 F) (c : camera F) :
    let m := (set_view_YXZ cos sin p r c).m_view_matrix
    block_row m 0 =
        ⟨cos r.y * cos r.z + sin r.y * sin r.x * sin r.z, cos r.x * sin r.z,
          cos r.y * sin r.x * sin r.z - cos r.z * sin r.y⟩ ∧
      block_row m 1 =
        ⟨cos r.z * sin r.y * sin r.x - cos r.y * sin r.z, cos r.x * cos r.z,
          cos r.y * cos r.z * sin r.x + sin r.y * sin r.z⟩ ∧
      block_row m 2 = ⟨cos r.x * sin r.y, -sin r.x, cos r.y * cos r.x⟩ := by
  simp [set_view_YXZ, block_row, mat4.set]

/-- The rows of the view matrix written by `set_view_XYZ` are its vectors `u`, `v`, `w`. -/
theorem set_view_XYZ_rows (cos sin : F → F) (p r : vec3 F) (c : camera F) :
    let m := (set_view_XYZ cos sin p r c).m_view_matrix
    block_row m 0 = ⟨cos r.y * cos r.z, -cos r.y * sin r.z, sin r.y⟩ ∧
      block_row m 1 =
        ⟨cos r.x * sin r.z + cos r.z * sin r.x * sin r.y,
          cos r.z * cos r.x - sin r.x * sin r.y * sin r.z, -cos r.y * sin r.x⟩ ∧
      block_row m 2 =
        ⟨sin r.x * sin r.z - cos r.x * cos r.z * sin r.y,
          cos r.x * sin r.y * sin r.z + cos r.z * sin r.x, cos r.x * cos r.y⟩ := by
  simp [set_view_XYZ, block_row, mat4.set]

/-- The columns `u`, `v`, `w` of `set_view_YXZ` form `Ry(r.y) * Rx(r.x) * Rz(r.z)`; this is
an identity of polynomials in the six trigonometric values. -/
theorem of_columns_set_view_YXZ (cos sin : F → F) (p r : vec3 F) (c : camera F) :
    of_columns (block_row (set_view_YXZ cos sin p r c).m_view_matrix 0)
        (block_row (set_view_YXZ cos sin p r c).m_view_matrix 1)
        (block_row (set_view_YXZ cos sin p r c).m_view_matrix 2) =
      Ry cos sin r.y * Rx cos sin r.x * Rz cos sin r.z := by
  obtain ⟨hu, hv, hw⟩ := set_view_YXZ_rows cos sin p r c
  rw [hu, hv, hw]
  funext i j
  fin_cases i <;> fin_cases j <;>
    simp [of_columns, Ry, Rx, Rz, Matrix.mul_apply, Fin.sum_univ_three] <;> ring

/-- The columns `u`, `v`, `w` of `set_view_XYZ` form the transpose of
`Rx(r.x) * Ry(r.y) * Rz(r.z)`: the vectors are the rows of that product. -/
theorem of_columns_set_view_XYZ (cos sin : F → F) (p r : vec3 F) (c : camera F) :
    of_columns (block_row (set_view_XYZ cos sin p r c).m_view_matrix 0)
        (block_row (set_view_XYZ cos sin p r c).m_view_matrix 1)
        (block_row (set_view_XYZ cos sin p r c).m_view_matrix 2) =
      (Rx cos sin r.x * Ry cos sin r.y * Rz cos sin r.z).transpose := by
  obtain ⟨hu, hv, hw⟩ := set_view_XYZ_rows cos sin p r c
  rw [hu, hv, hw]
  funext i j
  fin_cases i <;> fin_cases j <;>
    simp [of_columns, Ry, Rx, Rz, Matrix.mul_apply, Fin.sum_univ_three,
      Matrix.transpose_apply] <;> ring

end rotations

/-! ## Elemental rotations over the reals are proper rotations -/

section proper

theorem Rx_transpose_mul (t : ℝ) :
    (Rx Real.cos Real.sin t).transpose * Rx Real.cos Real.sin t = 1 := by
  have h := Real.cos_sq_add_sin_sq t
  ext i j
  simp only [Matrix.mul_apply, Matrix.transpose_apply, Fin.sum_univ_three, Matrix.one_apply]
  fin_cases i <;> fin_cases j <;> simp [Rx, Matrix.vecHead, Matrix.vecTail] <;>
    first
    | ring1
    | linear_combination h

theorem Ry_transpose_mul (t : ℝ) :
    (Ry Real.cos Real.sin t).transpose * Ry Real.cos Real.sin t = 1 := by
  have h := Real.cos_sq_add_sin_sq t
  ext i j
  simp only [Matrix.mul_apply, Matrix.transpose_apply, Fin.sum_univ_three, Matrix.one_apply]
  fin_cases i <;> fin_cases j <;> simp [Ry, Matrix.vecHead, Matrix.vecTail] <;>
    first
    | ring1
    | linear_combination h

theorem Rz_transpose_mul (t : ℝ) :
    (Rz Real.cos Real.sin t).transpose * Rz Real.cos Real.sin t = 1 := by
  have h := Real.cos_sq_add_sin_sq t
  ext i j
  simp only [Matrix.mul_apply, Matrix.transpose_apply, Fin.sum_univ_three, Matrix.one_apply]
  fin_cases i <;> fin_cases j <;> simp [Rz, Matrix.vecHead, Matrix.vecTail] <;>
    first
    | ring1
    | linear_combination h

theorem det_Rx (t : ℝ) : (Rx Real.cos Real.sin t).det = 1 := by
  have h := Real.cos_sq_add_sin_sq t
  simp [Rx, Matrix.det_fin_three]
  linear_combination h

theorem det_Ry (t : ℝ) : (Ry Real.cos Real.sin t).det = 1 := by
  have h := Real.cos_sq_add_sin_sq t
  simp [Ry, Matrix.det_fin_three]
  linear_combination h

theorem det_Rz (t : ℝ) : (Rz Real.cos Real.sin t).det = 1 := by
  have h := Real.cos_sq_add_sin_sq t
  simp [Rz, Matrix.det_fin_three]
  linear_combination h

theorem transpose_mul_self_of_three (A B C : Matrix (Fin 3) (Fin 3) ℝ)
    (hA : A.transpose * A = 1) (hB : B.transpose * B = 1) (hC : C.transpose * C = 1) :
    (A * B * C).transpose * (A * B * C) = 1 := by
  simp only [Matrix.transpose_mul, Matrix.mul_assoc]
  rw [← Matrix.mul_assoc A.transpose A, hA, Matrix.one_mul, ← Matrix.mul_assoc B.transpose B,
    hB, Matrix.one_mul, hC]

/-- When the block times its transpose is the identity, the block rows are unit vectors
and pairwise orthogonal. -/
theorem block_rows_orthonormal (m : mat4 ℝ)
    (h : rotation_block m * (rotation_block m).transpose = 1) :
    (dot (block_row m 0) (block_row m 0) = 1 ∧ dot (block_row m 1) (block_row m 1) = 1 ∧
        dot (block_row m 2) (block_row m 2) = 1) ∧
      (dot (block_row m 0) (block_row m 1) = 0 ∧ dot (block_row m 0) (block_row m 2) = 0 ∧
        dot (block_row m 1) (block_row m 2) = 0) := by
  have e : ∀ i j : Fin 3, (rotation_block m * (rotation_block m).transpose) i j =
      (1 : Matrix (Fin 3) (Fin 3) ℝ) i j := fun i j => by rw [h]
  have e00 := e 0 0
  have e11 := e 1 1
  have e22 := e 2 2
  have e01 := e 0 1
  have e02 := e 0 2
  have e12 := e 1 2
  simp only [Matrix.mul_apply, Matrix.transpose_apply, Fin.sum_univ_three, rotation_block,
    Fin.castSucc_zero, Fin.castSucc_one, castSucc_two] at e00 e11 e22 e01 e02 e12
  simp only [dot, block_row]
  refine ⟨⟨?_, ?_, ?_⟩, ?_, ?_, ?_⟩
  · simpa using e00
  · simpa using e11
  · simpa using e22
  · simpa using e01
  · simpa using e02
  · simpa using e12

/-- C12: over the reals, for every position and every rotation vector, the upper-left 3×3
block of the view matrix written by `set_view_YXZ` and by `set_view_XYZ` is a proper
rotation: its rows `u`, `v`, `w` have unit length, are pairwise orthogonal, and the block
has determinant `1`. -/
theorem set_view_euler_proper_rotation (position rotation : vec3 ℝ) (c : camera ℝ) :
    (let m := (set_view_YXZ Real.cos Real.sin position rotation c).m_view_matrix
     let u := block_row m 0
     let v := block_row m 1
     let w := block_row m 2
     (dot u u = 1 ∧ dot v v = 1 ∧ dot w w = 1) ∧
       (dot u v = 0 ∧ dot u w = 0 ∧ dot v w = 0) ∧ (rotation_block m).det = 1) ∧
    (let m := (set_view_XYZ Real.cos Real.sin position rotation c).m_view_matrix
     let u := block_row m 0
     let v := block_row m 1
     let w := block_row m 2
     (dot u u = 1 ∧ dot v v = 1 ∧ dot w w = 1) ∧
       (dot u v = 0 ∧ dot u w = 0 ∧ dot v w = 0) ∧ (rotation_block m).det = 1) := by
  have hY : rotation_block (set_view_YXZ Real.cos Real.sin position rotation c).m_view_matrix =
      (Ry Real.cos Real.sin rotation.y * Rx Real.cos Real.sin rotation.x *
        Rz Real.cos Real.sin rotation.z).transpose := by
    rw [rotation_block_eq_transpose_of_columns, of_columns_set_view_YXZ]
  have hX : rotation_block (set_view_XYZ Real.cos Real.sin position rotation c).m_view_matrix =
      Rx Real.cos Real.sin rotation.x * Ry Real.cos Real.sin rotation.y *
        Rz Real.cos Real.sin rotation.z := by
    rw [rotation_block_eq_transpose_of_columns, of_columns_set_view_XYZ,
      Matrix.transpose_transpose]
  have oY := transpose_mul_self_of_three _ _ _ (Ry_transpose_mul rotation.y)
    (Rx_transpose_mul rotation.x) (Rz_transpose_mul rotation.z)
  have oX := transpose_mul_self_of_three _ _ _ (Rx_transpose_mul rotation.x)
    (Ry_transpose_mul rotation.y) (Rz_transpose_mul rotation.z)
  refine ⟨?_, ?_⟩
  · intro m u v w
    have hb : rotation_block m * (rotation_block m).transpose = 1 := by
      rw [hY, Matrix.transpose_transpose]; exact oY
    have hdet : (rotation_block m).det = 1 := by
      rw [hY, Matrix.det_transpose, Matrix.det_mul, Matrix.det_mul, det_Ry, det_Rx, det_Rz]
      norm_num
    obtain ⟨h1, h2⟩ := block_rows_orthonormal m hb
    exact ⟨h1, h2, hdet⟩
  · intro m u v w
    have hb : rotation_block m * (rotation_block m).transpose = 1 := by
      rw [hX]; exact Matrix.mul_eq_one_comm.1 oX
    have hdet : (rotation_block m).det = 1 := by
      rw [hX, Matrix.det_mul, Matrix.det_mul, det_Rx, det_Ry, det_Rz]
      norm_num
    obtain ⟨h1, h2⟩ := block_rows_orthonormal m hb
    exact ⟨h1, h2, hdet⟩

end proper

/-! ## Composition order of the two Euler-angle poses -/

section composition

/-- C13: over the reals, for every rotation `r` (and position and prior state), the 3×3
matrix whose columns are the basis vectors `u`, `v`, `w` computed by `set_view_YXZ` is the
product `Ry(r.y) * Rx(r.x) * Rz(r.z)`; the rotation block of the view matrix, which has
`u`, `v`, `w` as rows, is the transpose of that product and its inverse. -/
theorem set_view_YXZ_columns (position rotation : vec3 ℝ) (c : camera ℝ) :
    of_columns (block_row (set_view_YXZ Real.cos Real.sin position rotation c).m_view_matrix 0)
        (block_row (set_view_YXZ Real.cos Real.sin position rotation c).m_view_matrix 1)
        (block_row (set_view_YXZ Real.cos Real.sin position rotation c).m_view_matrix 2) =
      Ry Real.cos Real.sin rotation.y * Rx Real.cos Real.sin rotation.x *
        Rz Real.cos Real.sin rotation.z ∧
    rotation_block (set_view_YXZ Real.cos Real.sin position rotation c).m_view_matrix =
      (Ry Real.cos Real.sin rotation.y * Rx Real.cos Real.sin rotation.x *
        Rz Real.cos Real.sin rotation.z).transpose ∧
    rotation_block (set_view_YXZ Real.cos Real.sin position rotation c).m_view_matrix *
      (Ry Real.cos Real.sin rotation.y * Rx Real.cos Real.sin rotation.x *
        Rz Real.cos Real.sin rotation.z) = 1 ∧
    (Ry Real.cos Real.sin rotation.y * Rx Real.cos Real.sin rotation.x *
        Rz Real.cos Real.sin rotation.z) *
      rotation_block (set_view_YXZ Real.cos Real.sin position rotation c).m_view_matrix = 1 := by
  have hcols := of_columns_set_view_YXZ Real.cos Real.sin position rotation c
  have hblock : rotation_block
      (set_view_YXZ Real.cos Real.sin position rotation c).m_view_matrix =
      (Ry Real.cos Real.sin rotation.y * Rx Real.cos Real.sin rotation.x *
        Rz Real.cos Real.sin rotation.z).transpose := by
    rw [rotation_block_eq_transpose_of_columns, hcols]
  have horth := transpose_mul_self_of_three _ _ _ (Ry_transpose_mul rotation.y)
    (Rx_transpose_mul rotation.x) (Rz_transpose_mul rotation.z)
  refine ⟨hcols, hblock, ?_, ?_⟩
  · rw [hblock]; exact horth
  · rw [hblock]; exact Matrix.mul_eq_one_comm.1 horth

/-- C14, the code at the rotation `(π/2, 0, 0)`: the matrix whose columns are the vectors
`u`, `v`, `w` of `set_view_XYZ` is not `Rx(π/2) * Ry(0) * Rz(0)` (row 1, column 2 is `1`
in the former and `-1` in the latter); it is the transpose of that product, that is, the
vectors are the rows of the product where `set_view_YXZ` has its columns. -/
theorem set_view_XYZ_columns_transposed :
    of_columns
        (block_row (set_view_XYZ Real.cos Real.sin ⟨0, 0, 0⟩ ⟨Real.pi / 2, 0, 0⟩
          (camera.initial : camera ℝ)).m_view_matrix 0)
        (block_row (set_view_XYZ Real.cos Real.sin ⟨0, 0, 0⟩ ⟨Real.pi / 2, 0, 0⟩
          (camera.initial : camera ℝ)).m_view_matrix 1)
        (block_row (set_view_XYZ Real.cos Real.sin ⟨0, 0, 0⟩ ⟨Real.pi / 2, 0, 0⟩
          (camera.initial : camera ℝ)).m_view_matrix 2) ≠
      Rx Real.cos Real.sin (Real.pi / 2) * Ry Real.cos Real.sin 0 * Rz Real.cos Real.sin 0 ∧
    of_columns
        (block_row (set_view_XYZ Real.cos Real.sin ⟨0, 0, 0⟩ ⟨Real.pi / 2, 0, 0⟩
          (camera.initial : camera ℝ)).m_view_matrix 0)
        (block_row (set_view_XYZ Real.cos Real.sin ⟨0, 0, 0⟩ ⟨Real.pi / 2, 0, 0⟩
          (camera.initial : camera ℝ)).m_view_matrix 1)
        (block_row (set_view_XYZ Real.cos Real.sin ⟨0, 0, 0⟩ ⟨Real.pi / 2, 0, 0⟩
          (camera.initial : camera ℝ)).m_view_matrix 2) =
      (Rx Real.cos Real.sin (Real.pi / 2) * Ry Real.cos Real.sin 0 *
        Rz Real.cos Real.sin 0).transpose ∧
    (block_row (set_view_XYZ Real.cos Real.sin ⟨0, 0, 0⟩ ⟨Real.pi / 2, 0, 0⟩
        (camera.initial : camera ℝ)).m_view_matrix 2).y = 1 ∧
    (Rx Real.cos Real.sin (Real.pi / 2) * Ry Real.cos Real.sin 0 *
        Rz Real.cos Real.sin 0) 1 2 = -1 := by
  have hcols := of_columns_set_view_XYZ Real.cos Real.sin ⟨0, 0, 0⟩ ⟨Real.pi / 2, 0, 0⟩
    (camera.initial : camera ℝ)
  have hprod : (Rx Real.cos Real.sin (Real.pi / 2) * Ry Real.cos Real.sin 0 *
      Rz Real.cos Real.sin 0) 1 2 = -1 := by
    simp [Rx, Ry, Rz, Matrix.mul_apply, Fin.sum_univ_three, Matrix.vecHead, Matrix.vecTail]
  have hrow : (block_row (set_view_XYZ Real.cos Real.sin ⟨0, 0, 0⟩ ⟨Real.pi / 2, 0, 0⟩
      (camera.initial : camera ℝ)).m_view_matrix 2).y = 1 := by
    simp [set_view_XYZ, block_row, mat4.set]
  refine ⟨?_, hcols, hrow, hprod⟩
  intro h
  have h12 := congrFun (congrFun h 1) 2
  rw [hprod] at h12
  have hentry : of_columns
      (block_row (set_view_XYZ Real.cos Real.sin ⟨0, 0, 0⟩ ⟨Real.pi / 2, 0, 0⟩
        (camera.initial : camera ℝ)).m_view_matrix 0)
      (block_row (set_view_XYZ Real.cos Real.sin ⟨0, 0, 0⟩ ⟨Real.pi / 2, 0, 0⟩
        (camera.initial : camera ℝ)).m_view_matrix 1)
      (block_row (set_view_XYZ Real.cos Real.sin ⟨0, 0, 0⟩ ⟨Real.pi / 2, 0, 0⟩
        (camera.initial : camera ℝ)).m_view_matrix 2) 1 2 = 1 := by
    simp [of_columns, set_view_XYZ, block_row, mat4.set, Matrix.vecHead, Matrix.vecTail]
  rw [hentry] at h12
  norm_num at h12

end composition

end GLT
